import Mathlib

/-!
Verification development for the bambi model-specification layer.

Shallow embedding of the parts of the code base that the checked
properties are about:

* `priors/prior.py` — the `Prior` value object and `Prior.update`.
* `priors/scaler_rstanarm.py` — the rstanarm-style prior auto-scaler.
* `families/likelihood.py` — `Likelihood` construction and validation.
* `families/family.py` — the `Family.link` setter.
* `model_components.py` — `DistributionalComponent.predict`.
* `plots/utils.py` — `set_default_values`, `make_main_values`.
* `plots/effects.py` — `PredictiveDifferences.set_variable_values` and
  the effect-type switch in `slopes`.

Python values that matter to the claims (numbers, numpy arrays, nested
priors) are modelled by the inductive `PValue`; numpy arrays carry their
shape so that `np.squeeze` is meaningful.  Python dicts keyed by strings
are association lists together with `dictUpdate`, which mirrors
`dict.update` (existing keys are overwritten in place, new keys are
appended in order).  Fallible Python code is embedded in `Except String`.
-/

/-- A Python value stored in `Prior.args`: a numeric scalar, a numpy
array (shape plus row-major data), or a nested `Prior` (hyperprior).
`PriorRep` mirrors the `Prior` class of `priors/prior.py`:
`name`, `auto_scale`, `args`. -/
inductive PValue where
  | num : ℚ → PValue
  | arr : List ℕ → List ℚ → PValue
  | pr : String → Bool → List (String × PValue) → PValue

/-- The representation of a `Prior` object: distribution name,
`auto_scale` flag, and the `args` dict. -/
structure PriorRep where
  name : String
  auto_scale : Bool
  args : List (String × PValue)

/-- View a `PValue.pr` payload as a `PriorRep`. -/
def PValue.asPrior : PValue → Option PriorRep
  | .pr n a args => some ⟨n, a, args⟩
  | _ => none

/-- Wrap a `PriorRep` back into a `PValue`. -/
def PriorRep.toValue (p : PriorRep) : PValue := .pr p.name p.auto_scale p.args

/-- Model of `np.squeeze`: on an array it removes every axis of length
1; on any other value it is not applied by `Prior.update` (only
`np.ndarray` values are squeezed there). -/
def squeezePV : PValue → PValue
  | .arr shape data => .arr (shape.filter (fun d => d ≠ 1)) data
  | v => v

/-- Keys of a Python dict modelled as an association list. -/
def dkeys (d : List (String × PValue)) : List String := d.map Prod.fst

/-- Membership test for a key, `k in d` in Python. -/
def dmem (k : String) (d : List (String × PValue)) : Bool :=
  d.any (fun kv => kv.1 = k)

/-- Lookup `d[k]` returning the first binding, as Python dicts hold at
most one binding per key. -/
def dlookup (k : String) (d : List (String × PValue)) : Option PValue :=
  (d.find? (fun kv => kv.1 = k)).map Prod.snd

/-- Model of `d.update(kw)` for Python dicts: keys already present are
overwritten in place (keeping their position), new keys are appended in
the order they appear in `kw`. -/
def dictUpdate (d kw : List (String × PValue)) : List (String × PValue) :=
  d.map (fun kv =>
    match kw.find? (fun x => x.1 = kv.1) with
    | some x => (kv.1, x.2)
    | none => kv)
  ++ kw.filter (fun x => ¬ dmem x.1 d)

/-- Embedding of `Prior.update(**kwargs)` from `priors/prior.py`:
numpy-array values are squeezed, then `self.args.update(kwargs_)` merges
them in. -/
def PriorRep.update (p : PriorRep) (kwargs : List (String × PValue)) : PriorRep :=
  { p with args := dictUpdate p.args (kwargs.map (fun kv => (kv.1, squeezePV kv.2))) }

/-- Embedding of `Prior.__init__(name, auto_scale, **kwargs)`: starts
with empty `args` and runs `update`. -/
def PriorRep.mkInit (name : String) (auto_scale : Bool)
    (kwargs : List (String × PValue)) : PriorRep :=
  PriorRep.update ⟨name, auto_scale, []⟩ kwargs

/-! ### Dictionary lemmas -/

/-- The overwriting function used inside `dictUpdate`. -/
def dOverwrite (kw : List (String × PValue)) (kv : String × PValue) : String × PValue :=
  match kw.find? (fun x => x.1 = kv.1) with
  | some x => (kv.1, x.2)
  | none => kv

theorem dictUpdate_eq (d kw : List (String × PValue)) :
    dictUpdate d kw = d.map (dOverwrite kw) ++ kw.filter (fun x => ¬ dmem x.1 d) := rfl

theorem dOverwrite_fst (kw : List (String × PValue)) (kv : String × PValue) :
    (dOverwrite kw kv).1 = kv.1 := by
  unfold dOverwrite
  cases kw.find? (fun x => x.1 = kv.1) <;> rfl

theorem dmem_iff (k : String) (d : List (String × PValue)) :
    dmem k d = true ↔ k ∈ dkeys d := by
  simp only [dmem, List.any_eq_true, decide_eq_true_eq, dkeys, List.mem_map]

theorem dkeys_dictUpdate (d kw : List (String × PValue)) :
    dkeys (dictUpdate d kw) =
      dkeys d ++ dkeys (kw.filter (fun x => ¬ dmem x.1 d)) := by
  rw [dictUpdate_eq]
  unfold dkeys
  rw [List.map_append, List.map_map]
  have hfun : (Prod.fst ∘ dOverwrite kw) = (Prod.fst : String × PValue → String) :=
    funext (fun kv => dOverwrite_fst kw kv)
  rw [hfun]

theorem mem_dkeys_dictUpdate (d kw : List (String × PValue)) (k : String) :
    k ∈ dkeys (dictUpdate d kw) ↔ k ∈ dkeys d ∨ k ∈ dkeys kw := by
  rw [dkeys_dictUpdate, List.mem_append]
  constructor
  · rintro (h | h)
    · exact Or.inl h
    · refine Or.inr ?_
      simp only [dkeys, List.mem_map] at h ⊢
      obtain ⟨kv, hkv, rfl⟩ := h
      exact ⟨kv, List.mem_of_mem_filter hkv, rfl⟩
  · rintro (h | h)
    · exact Or.inl h
    · by_cases hd : k ∈ dkeys d
      · exact Or.inl hd
      · refine Or.inr ?_
        simp only [dkeys, List.mem_map] at h ⊢
        obtain ⟨kv, hkv, rfl⟩ := h
        refine ⟨kv, List.mem_filter_of_mem hkv ?_, rfl⟩
        simp only [decide_eq_true_eq]
        intro hmem
        exact hd ((dmem_iff kv.1 d).mp hmem)

/-- Finding a key in the mapped (overwritten) part reduces to finding it
in the original dict, because overwriting preserves keys. -/
theorem find?_map_dOverwrite (d kw : List (String × PValue)) (k : String) :
    (d.map (dOverwrite kw)).find? (fun kv => kv.1 = k)
      = (d.find? (fun kv => kv.1 = k)).map (dOverwrite kw) := by
  rw [List.find?_map]
  have hfun : ((fun kv : String × PValue => decide (kv.1 = k)) ∘ dOverwrite kw)
      = (fun kv : String × PValue => decide (kv.1 = k)) := by
    funext kv
    simp [Function.comp, dOverwrite_fst]
  rw [hfun]

/-- In a dict with `Nodup` keys, `find?` at a key retrieves exactly the
binding that contains it. -/
theorem find?_of_mem_nodup (kw : List (String × PValue)) (k : String) (v : PValue)
    (hnodup : (dkeys kw).Nodup) (hkv : (k, v) ∈ kw) :
    kw.find? (fun x => x.1 = k) = some (k, v) := by
  induction kw with
  | nil => cases hkv
  | cons hd tl ih =>
    rcases List.mem_cons.mp hkv with h | h
    · rw [← h]
      exact List.find?_cons_of_pos tl (by simp)
    · have hnodup' : (hd.1 :: dkeys tl).Nodup := hnodup
      have hnd := List.nodup_cons.mp hnodup'
      have hk_tl : k ∈ dkeys tl := List.mem_map_of_mem Prod.fst h
      have hhd : ¬ (hd.1 = k) := fun he => hnd.1 (he ▸ hk_tl)
      rw [List.find?_cons_of_neg tl (by simpa using hhd)]
      exact ih hnd.2 h

theorem find?_eq_none_of_not_mem_dkeys (d : List (String × PValue)) (k : String)
    (hk : k ∉ dkeys d) : d.find? (fun kv => kv.1 = k) = none := by
  rw [List.find?_eq_none]
  intro kv hkv
  simp only [decide_eq_true_eq]
  intro he
  exact hk (he ▸ List.mem_map_of_mem Prod.fst hkv)

theorem dlookup_dictUpdate_not_mem (d kw : List (String × PValue)) (k : String)
    (hk : k ∉ dkeys kw) :
    dlookup k (dictUpdate d kw) = dlookup k d := by
  unfold dlookup
  rw [dictUpdate_eq, List.find?_append, find?_map_dOverwrite]
  have hfilter : (kw.filter (fun x => ¬ dmem x.1 d)).find? (fun kv => kv.1 = k) = none :=
    find?_eq_none_of_not_mem_dkeys _ k (fun hmem => by
      have : k ∈ dkeys kw := by
        simp only [dkeys, List.mem_map] at hmem ⊢
        obtain ⟨kv, hkv, rfl⟩ := hmem
        exact ⟨kv, List.mem_of_mem_filter hkv, rfl⟩
      exact hk this)
  rw [hfilter]
  cases hfd : d.find? (fun kv => kv.1 = k) with
  | none => simp
  | some kv₀ =>
    have hk₀ : kv₀.1 = k := by simpa using List.find?_some hfd
    have hov : dOverwrite kw kv₀ = kv₀ := by
      unfold dOverwrite
      rw [hk₀, find?_eq_none_of_not_mem_dkeys kw k hk]
    simp [hov]

theorem dlookup_dictUpdate_mem (d kw : List (String × PValue)) (k : String) (v : PValue)
    (hnodup : (dkeys kw).Nodup) (hkv : (k, v) ∈ kw) :
    dlookup k (dictUpdate d kw) = some v := by
  unfold dlookup
  rw [dictUpdate_eq, List.find?_append, find?_map_dOverwrite]
  by_cases hkd : k ∈ dkeys d
  · obtain ⟨kv₀, hkv₀d, hkv₀1⟩ : ∃ kv₀ ∈ d, kv₀.1 = k := by
      simp only [dkeys, List.mem_map] at hkd
      obtain ⟨kv₀, h1, h2⟩ := hkd
      exact ⟨kv₀, h1, h2⟩
    have hsome : (d.find? (fun kv => kv.1 = k)).isSome := by
      rw [List.find?_isSome]
      exact ⟨kv₀, hkv₀d, by simpa using hkv₀1⟩
    obtain ⟨kv₁, hfd⟩ := Option.isSome_iff_exists.mp hsome
    have hk₁ : kv₁.1 = k := by simpa using List.find?_some hfd
    have hov : dOverwrite kw kv₁ = (kv₁.1, v) := by
      unfold dOverwrite
      rw [hk₁, find?_of_mem_nodup kw k v hnodup hkv]
    simp [hfd, hov]
  · rw [find?_eq_none_of_not_mem_dkeys d k hkd]
    have hmemf : (k, v) ∈ kw.filter (fun x => ¬ dmem x.1 d) := by
      refine List.mem_filter_of_mem hkv ?_
      simp only [decide_eq_true_eq]
      intro hmem
      exact hkd ((dmem_iff k d).mp hmem)
    have hnodupf : (dkeys (kw.filter (fun x => ¬ dmem x.1 d))).Nodup := by
      refine List.Nodup.sublist ?_ hnodup
      exact List.Sublist.map Prod.fst (List.filter_sublist kw)
    rw [find?_of_mem_nodup _ k v hnodupf hmemf]
    simp

/-- Overwriting twice with the same keyword dict is the same as
overwriting once. -/
theorem dOverwrite_dOverwrite (kw : List (String × PValue)) (kv : String × PValue) :
    dOverwrite kw (dOverwrite kw kv) = dOverwrite kw kv := by
  unfold dOverwrite
  cases hfk : kw.find? (fun x => x.1 = kv.1) with
  | none => simp [hfk]
  | some x => simp [hfk]

/-- Updating with a fixed keyword dict (with distinct keys) is
idempotent. -/
theorem dictUpdate_idem (d kw : List (String × PValue))
    (hnodup : (dkeys kw).Nodup) :
    dictUpdate (dictUpdate d kw) kw = dictUpdate d kw := by
  rw [dictUpdate_eq d kw, dictUpdate_eq]
  have h1 : ((d.map (dOverwrite kw) ++ kw.filter (fun x => ¬ dmem x.1 d)).map
      (dOverwrite kw)) = d.map (dOverwrite kw) ++ kw.filter (fun x => ¬ dmem x.1 d) := by
    rw [List.map_append, List.map_map]
    have ha : d.map (dOverwrite kw ∘ dOverwrite kw) = d.map (dOverwrite kw) :=
      List.map_congr_left (fun kv _ => dOverwrite_dOverwrite kw kv)
    have hb : (kw.filter (fun x => ¬ dmem x.1 d)).map (dOverwrite kw)
        = kw.filter (fun x => ¬ dmem x.1 d) := by
      have hid : (kw.filter (fun x => ¬ dmem x.1 d)).map (dOverwrite kw)
          = (kw.filter (fun x => ¬ dmem x.1 d)).map id := by
        apply List.map_congr_left
        intro kv hkv
        have hkvkw : kv ∈ kw := List.mem_of_mem_filter hkv
        unfold dOverwrite
        rw [find?_of_mem_nodup kw kv.1 kv.2 hnodup (by simpa using hkvkw)]
        exact rfl
      rw [hid, List.map_id]
    rw [ha, hb]
  have h2 : kw.filter
      (fun x => ¬ dmem x.1 (d.map (dOverwrite kw) ++ kw.filter (fun y => ¬ dmem y.1 d)))
        = [] := by
    rw [List.filter_eq_nil_iff]
    intro x hx
    simp only [decide_eq_true_eq, Decidable.not_not]
    rw [dmem_iff]
    rw [← dictUpdate_eq, mem_dkeys_dictUpdate]
    exact Or.inr (List.mem_map_of_mem Prod.fst hx)
  rw [h1, h2, List.append_nil]

theorem PriorRep.update_name (p : PriorRep) (kw : List (String × PValue)) :
    (p.update kw).name = p.name := rfl

theorem PriorRep.update_auto_scale (p : PriorRep) (kw : List (String × PValue)) :
    (p.update kw).auto_scale = p.auto_scale := rfl

theorem dkeys_map_squeeze (kw : List (String × PValue)) :
    dkeys (kw.map (fun kv => (kv.1, squeezePV kv.2))) = dkeys kw := by
  unfold dkeys
  rw [List.map_map]
  rfl

/-- Running `Prior.update` twice with the same keyword dict is the same
as running it once. -/
theorem PriorRep.update_idem (p : PriorRep) (kw : List (String × PValue))
    (hnodup : (dkeys kw).Nodup) :
    (p.update kw).update kw = p.update kw := by
  obtain ⟨n, a, args⟩ := p
  show PriorRep.mk n a
      (dictUpdate (dictUpdate args (kw.map (fun kv => (kv.1, squeezePV kv.2))))
        (kw.map (fun kv => (kv.1, squeezePV kv.2))))
    = PriorRep.mk n a (dictUpdate args (kw.map (fun kv => (kv.1, squeezePV kv.2))))
  rw [dictUpdate_idem _ _ (by rw [dkeys_map_squeeze]; exact hnodup)]

/-! ### C4 — `Prior.update` merge semantics -/

/-- Claim C4: for every Prior `p` and every keyword mapping `kwargs`
(whose keys, as Python keyword arguments, are distinct), after
`p.update(**kwargs)`: the key set of `p.args` is the union of its
previous keys and the keys of `kwargs`; keys not in `kwargs` keep their
previous values; keys in `kwargs` take the supplied value, with
numpy-array values stored squeezed. -/
theorem prior_update_merge (p : PriorRep) (kwargs : List (String × PValue))
    (hnodup : (dkeys kwargs).Nodup) :
    (∀ k, k ∈ dkeys (p.update kwargs).args ↔ k ∈ dkeys p.args ∨ k ∈ dkeys kwargs)
    ∧ (∀ k, k ∉ dkeys kwargs →
        dlookup k (p.update kwargs).args = dlookup k p.args)
    ∧ (∀ k v, (k, v) ∈ kwargs →
        dlookup k (p.update kwargs).args = some (squeezePV v)) := by
  have hkeys : dkeys (kwargs.map (fun kv => (kv.1, squeezePV kv.2))) = dkeys kwargs := by
    unfold dkeys
    rw [List.map_map]
    rfl
  refine ⟨?_, ?_, ?_⟩
  · intro k
    unfold PriorRep.update
    rw [mem_dkeys_dictUpdate, hkeys]
  · intro k hk
    unfold PriorRep.update
    exact dlookup_dictUpdate_not_mem _ _ k (by rw [hkeys]; exact hk)
  · intro k v hkv
    unfold PriorRep.update
    exact dlookup_dictUpdate_mem _ _ k (squeezePV v) (by rw [hkeys]; exact hnodup)
      (by simpa using List.mem_map_of_mem (fun kv => (kv.1, squeezePV kv.2)) hkv)

/-- Witness for C4 at a concrete prior and keyword dict. -/
theorem prior_update_merge_witness :
    (dkeys [("sigma", PValue.arr [1, 3] [1, 2, 3]), ("nu", PValue.num 4)]).Nodup
    ∧ (dlookup "mu" (PriorRep.update ⟨"Normal", true, [("mu", PValue.num 0)]⟩
        [("sigma", PValue.arr [1, 3] [1, 2, 3]), ("nu", PValue.num 4)]).args
          = some (PValue.num 0))
    ∧ (dlookup "sigma" (PriorRep.update ⟨"Normal", true, [("mu", PValue.num 0)]⟩
        [("sigma", PValue.arr [1, 3] [1, 2, 3]), ("nu", PValue.num 4)]).args
          = some (PValue.arr [3] [1, 2, 3])) := by
  refine ⟨by decide, ?_, ?_⟩
  · exact (prior_update_merge ⟨"Normal", true, [("mu", PValue.num 0)]⟩
      [("sigma", PValue.arr [1, 3] [1, 2, 3]), ("nu", PValue.num 4)] (by decide)).2.1
      "mu" (by decide)
  · exact (prior_update_merge ⟨"Normal", true, [("mu", PValue.num 0)]⟩
      [("sigma", PValue.arr [1, 3] [1, 2, 3]), ("nu", PValue.num 4)] (by decide)).2.2
      "sigma" (PValue.arr [1, 3] [1, 2, 3]) (List.mem_cons_self _ _)

/-! ### The rstanarm prior scaler (`priors/scaler_rstanarm.py`) -/

/-- A common-effect term as seen by the scaler: its kind string
(`term.type`), the columns of its design-matrix data (`term.data.T`),
and its prior. -/
structure BTerm where
  ttype : String
  cols : List (List ℚ)
  prior : PriorRep

/-- A group-specific term as seen by the scaler: its kind string, the
columns of its "as common" reconstructed predictor (`term.predictor`),
and its prior (whose `sigma` argument is a hyperprior). -/
structure GTerm where
  ttype : String
  predCols : List (List ℚ)
  prior : PriorRep

/-- The response term: observed response data and its prior. -/
structure RTerm where
  data : List ℚ
  prior : PriorRep

/-- Modelled from the spec: the Model container the scaler walks
(`models.py` is not part of the sources at hand; the spec's data model
has the Model own a family name, the response term, the common terms and
the group-specific terms, which is all the scaler reads). -/
structure BModel where
  familyName : String
  response : RTerm
  commonTerms : List BTerm
  groupTerms : List GTerm

/-- Standard deviation multiplier, `PriorScaler2.STD = 2.5`. -/
def scalerSTD : ℚ := 5 / 2

/-- Response mean/std computed in `PriorScaler2.__init__`: the empirical
statistics for a gaussian family, `(0, 1)` otherwise.  The scaler is
parametric in the `mean`/`std` estimators (`np.mean`/`np.std`), which
are deterministic functions of the data. -/
def responseStats (mean std : List ℚ → ℚ) (familyName : String) (rdata : List ℚ) : ℚ × ℚ :=
  if familyName = "gaussian" then (mean rdata, std rdata) else (0, 1)

/-- Embedding of `PriorScaler2.get_intercept_stats`. -/
def get_intercept_stats (rmean rstd : ℚ) : ℚ × ℚ := (rmean, scalerSTD * rstd)

/-- Embedding of `PriorScaler2.get_slope_sigma`. -/
def get_slope_sigma (std : List ℚ → ℚ) (rstd : ℚ) (x : List ℚ) : ℚ :=
  scalerSTD * (rstd / std x)

/-- Embedding of `PriorScaler2.scale_response`. -/
def scale_response (familyName : String) (rstd : ℚ) (r : RTerm) : RTerm :=
  if r.prior.auto_scale then
    if familyName = "gaussian" then
      let hyper := PriorRep.mkInit "Exponential" true [("lam", PValue.num (1 / rstd))]
      let p := r.prior.update [("sigma", hyper.toValue)]
      { r with prior := p }
    else r
  else r

/-- Embedding of `PriorScaler2.scale_intercept`. -/
def scale_intercept (rmean rstd : ℚ) (t : BTerm) : BTerm :=
  if t.prior.name ≠ "Normal" then t
  else
    let p := t.prior.update [("mu", PValue.num (get_intercept_stats rmean rstd).1), ("sigma", PValue.num (get_intercept_stats rmean rstd).2)]
    { t with prior := p }

/-- Embedding of `PriorScaler2.scale_common`: as many zeros as columns
in the data for `mu`, and the per-column slope sigma.  (The scaler's
internal `self.priors` bookkeeping dict is written but never read back,
so it is not part of the state here.) -/
def scale_common (std : List ℚ → ℚ) (rstd : ℚ) (t : BTerm) : BTerm :=
  if t.prior.name ≠ "Normal" then t
  else
    let mu := PValue.arr [t.cols.length] (List.replicate t.cols.length 0)
    let sigma := PValue.arr [t.cols.length] (t.cols.map (fun x => get_slope_sigma std rstd x))
    let p := t.prior.update [("mu", mu), ("sigma", sigma)]
    { t with prior := p }

/-- Embedding of `PriorScaler2.scale_group_specific`: reads the
`sigma` hyperprior from the term prior's args (a `KeyError` if absent,
an `AttributeError` if it is not a Prior), leaves the term alone unless
the hyperprior is a `HalfNormal`, and otherwise updates the hyperprior's
`sigma` with the squeezed intercept/slope statistic.  The in-place
mutation of the nested prior object is modelled by replacing the
`sigma` binding of the outer args dict. -/
def scale_group_specific (std : List ℚ → ℚ) (rmean rstd : ℚ) (t : GTerm) :
    Except String GTerm :=
  match dlookup "sigma" t.prior.args with
  | none => .error "KeyError: sigma"
  | some v =>
    match v.asPrior with
    | none => .error "AttributeError: name"
    | some sp =>
      if sp.name ≠ "HalfNormal" then .ok t
      else
        let sigmaArr : PValue :=
          if t.ttype = "intercept" then
            PValue.arr [1] [(get_intercept_stats rmean rstd).2]
          else
            PValue.arr [t.predCols.length]
              (t.predCols.map (fun x => get_slope_sigma std rstd x))
        let sp' := sp.update [("sigma", squeezePV sigmaArr)]
        let args' := t.prior.args.map (fun kv => if kv.1 = "sigma" then (kv.1, sp'.toValue) else kv)
        let p := { t.prior with args := args' }
        .ok { t with prior := p }

/-- The intercept step of `PriorScaler2.scale`: pick the first common
term of type `intercept` and rescale it when its prior is auto-scaled. -/
def scaleFirstIntercept (rmean rstd : ℚ) : List BTerm → List BTerm
  | [] => []
  | t :: ts =>
    if t.ttype = "intercept" then
      (if t.prior.auto_scale then scale_intercept rmean rstd t else t) :: ts
    else
      t :: scaleFirstIntercept rmean rstd ts

/-- The common-terms step of `PriorScaler2.scale`: skip intercepts,
rescale auto-scaled priors. -/
def scaleCommonStep (std : List ℚ → ℚ) (rstd : ℚ) (t : BTerm) : BTerm :=
  if t.ttype = "intercept" then t
  else if t.prior.auto_scale then scale_common std rstd t else t

/-- The group-specific step of `PriorScaler2.scale`. -/
def scaleGroupStep (std : List ℚ → ℚ) (rmean rstd : ℚ) (t : GTerm) :
    Except String GTerm :=
  if t.prior.auto_scale then scale_group_specific std rmean rstd t else .ok t

/-- The common-terms phase of `PriorScaler2.scale`: the intercept pick
followed by the loop over the non-intercept common terms. -/
def scaleCommonPhase (rmean rstd : ℚ) (std : List ℚ → ℚ) (hasIntercept : Bool)
    (cts : List BTerm) : List BTerm :=
  let cts1 := if hasIntercept then scaleFirstIntercept rmean rstd cts else cts
  cts1.map (scaleCommonStep std rstd)

/-- Embedding of `PriorScaler2.scale`: response, then intercept, then
common slopes, then group-specific terms.  `has_intercept` is computed
as in `__init__` over all of the model's terms; when it holds but no
common term is an intercept, the `[0]` indexing in `scale` raises an
`IndexError`. -/
def PriorScaler2.scale (mean std : List ℚ → ℚ) (m : BModel) : Except String BModel :=
  let stats := responseStats mean std m.familyName m.response.data
  let rmean := stats.1
  let rstd := stats.2
  let response1 := scale_response m.familyName rstd m.response
  let hasIntercept := m.commonTerms.any (fun t => t.ttype = "intercept")
    || m.groupTerms.any (fun t => t.ttype = "intercept")
  if hasIntercept && m.commonTerms.all (fun t => ¬ t.ttype = "intercept") then
    .error "IndexError: list index out of range"
  else
    match m.groupTerms.mapM (scaleGroupStep std rmean rstd) with
    | .error e => .error e
    | .ok gts =>
      .ok ⟨m.familyName, response1, scaleCommonPhase rmean rstd std hasIntercept m.commonTerms, gts⟩

/-! ### Scaler preservation and idempotence lemmas -/

theorem nodup_dkeys_single (k : String) (v : PValue) : (dkeys [(k, v)]).Nodup := by
  show ([k] : List String).Nodup
  simp

theorem nodup_dkeys_pair (k1 k2 : String) (v1 v2 : PValue) (h : k1 ≠ k2) :
    (dkeys [(k1, v1), (k2, v2)]).Nodup := by
  show ([k1, k2] : List String).Nodup
  simp [h]

theorem scale_response_data (familyName : String) (rstd : ℚ) (r : RTerm) :
    (scale_response familyName rstd r).data = r.data := by
  unfold scale_response
  split <;> first | rfl | (split <;> rfl)

theorem scale_response_idem (familyName : String) (rstd : ℚ) (r : RTerm) :
    scale_response familyName rstd (scale_response familyName rstd r)
      = scale_response familyName rstd r := by
  by_cases h1 : r.prior.auto_scale
  · by_cases h2 : familyName = "gaussian"
    · simp only [scale_response, h1, h2, if_true, PriorRep.update_auto_scale]
      rw [PriorRep.update_idem _ _ (nodup_dkeys_single "sigma" _)]
    · simp [scale_response, h1, h2]
  · simp [scale_response, h1]

theorem scale_intercept_ttype (rmean rstd : ℚ) (t : BTerm) :
    (scale_intercept rmean rstd t).ttype = t.ttype := by
  unfold scale_intercept; split <;> rfl

theorem scale_intercept_name (rmean rstd : ℚ) (t : BTerm) :
    (scale_intercept rmean rstd t).prior.name = t.prior.name := by
  unfold scale_intercept; split <;> rfl

theorem scale_intercept_auto (rmean rstd : ℚ) (t : BTerm) :
    (scale_intercept rmean rstd t).prior.auto_scale = t.prior.auto_scale := by
  unfold scale_intercept; split <;> rfl

theorem scale_intercept_idem (rmean rstd : ℚ) (t : BTerm) :
    scale_intercept rmean rstd (scale_intercept rmean rstd t)
      = scale_intercept rmean rstd t := by
  by_cases h : t.prior.name = "Normal"
  · simp only [scale_intercept, h, ne_eq, not_true_eq_false, if_false,
      PriorRep.update_name]
    rw [PriorRep.update_idem _ _ (nodup_dkeys_pair "mu" "sigma" _ _ (by decide))]
  · simp [scale_intercept, h]

theorem scale_common_ttype (std : List ℚ → ℚ) (rstd : ℚ) (t : BTerm) :
    (scale_common std rstd t).ttype = t.ttype := by
  unfold scale_common; split <;> rfl

theorem scale_common_name (std : List ℚ → ℚ) (rstd : ℚ) (t : BTerm) :
    (scale_common std rstd t).prior.name = t.prior.name := by
  unfold scale_common; split <;> rfl

theorem scale_common_auto (std : List ℚ → ℚ) (rstd : ℚ) (t : BTerm) :
    (scale_common std rstd t).prior.auto_scale = t.prior.auto_scale := by
  unfold scale_common; split <;> rfl

theorem scale_common_cols (std : List ℚ → ℚ) (rstd : ℚ) (t : BTerm) :
    (scale_common std rstd t).cols = t.cols := by
  unfold scale_common; split <;> rfl

theorem scale_common_idem (std : List ℚ → ℚ) (rstd : ℚ) (t : BTerm) :
    scale_common std rstd (scale_common std rstd t) = scale_common std rstd t := by
  by_cases h : t.prior.name = "Normal"
  · simp only [scale_common, h, ne_eq, not_true_eq_false, if_false,
      PriorRep.update_name]
    rw [PriorRep.update_idem _ _ (nodup_dkeys_pair "mu" "sigma" _ _ (by decide))]
  · simp [scale_common, h]

theorem scaleCommonStep_ttype (std : List ℚ → ℚ) (rstd : ℚ) (t : BTerm) :
    (scaleCommonStep std rstd t).ttype = t.ttype := by
  unfold scaleCommonStep
  split
  · rfl
  · split
    · exact scale_common_ttype std rstd t
    · rfl

theorem scaleCommonStep_idem (std : List ℚ → ℚ) (rstd : ℚ) (t : BTerm) :
    scaleCommonStep std rstd (scaleCommonStep std rstd t) = scaleCommonStep std rstd t := by
  by_cases h1 : t.ttype = "intercept"
  · simp [scaleCommonStep, h1]
  · by_cases h2 : t.prior.auto_scale
    · simp only [scaleCommonStep, h1, if_false, h2, if_true, scale_common_ttype,
        scale_common_auto]
      exact scale_common_idem std rstd t
    · simp [scaleCommonStep, h1, h2]

/-- Applying `scaleCommonStep` to a term that came out of
`scaleFirstIntercept` position-wise: the scaled intercept is fixed by
the step (the step skips intercepts). -/
theorem scaleFirstIntercept_ttypes (rmean rstd : ℚ) (l : List BTerm) :
    (scaleFirstIntercept rmean rstd l).map BTerm.ttype = l.map BTerm.ttype := by
  induction l with
  | nil => rfl
  | cons t ts ih =>
    by_cases h : t.ttype = "intercept"
    · by_cases h2 : t.prior.auto_scale <;>
        simp [scaleFirstIntercept, h, h2, scale_intercept_ttype]
    · simp [scaleFirstIntercept, h, ih]

theorem scaleFirstIntercept_idem (rmean rstd : ℚ) (l : List BTerm) :
    scaleFirstIntercept rmean rstd (scaleFirstIntercept rmean rstd l)
      = scaleFirstIntercept rmean rstd l := by
  induction l with
  | nil => rfl
  | cons t ts ih =>
    by_cases h : t.ttype = "intercept"
    · by_cases h2 : t.prior.auto_scale
      · simp only [scaleFirstIntercept, h, if_true, h2]
        simp only [scale_intercept_ttype, h, if_true, scale_intercept_auto, h2]
        rw [scale_intercept_idem]
      · simp [scaleFirstIntercept, h, h2]
    · simp [scaleFirstIntercept, h, ih]

theorem dlookup_map_replace (k : String) (w : PValue) (d : List (String × PValue))
    (v : PValue) (h : dlookup k d = some v) :
    dlookup k (d.map (fun kv => if kv.1 = k then (kv.1, w) else kv)) = some w := by
  induction d with
  | nil => simp [dlookup] at h
  | cons hd tl ih =>
    by_cases hk : hd.1 = k
    · unfold dlookup
      rw [List.map_cons, if_pos hk]
      rw [List.find?_cons_of_pos _ (by simpa using hk)]
      rfl
    · unfold dlookup at h ⊢
      rw [List.find?_cons_of_neg _ (by simpa using hk)] at h
      rw [List.map_cons, if_neg hk, List.find?_cons_of_neg _ (by simpa using hk)]
      exact ih h

theorem map_replace_map_replace (k : String) (w w' : PValue) (d : List (String × PValue)) :
    (d.map (fun kv => if kv.1 = k then (kv.1, w) else kv)).map
        (fun kv => if kv.1 = k then (kv.1, w') else kv)
      = d.map (fun kv => if kv.1 = k then (kv.1, w') else kv) := by
  rw [List.map_map]
  apply List.map_congr_left
  intro kv _
  by_cases h : kv.1 = k <;> simp [h]

theorem PValue.asPrior_toValue (p : PriorRep) : p.toValue.asPrior = some p := rfl

theorem scale_group_specific_fields (std : List ℚ → ℚ) (rmean rstd : ℚ) (t t' : GTerm)
    (h : scale_group_specific std rmean rstd t = .ok t') :
    t'.ttype = t.ttype ∧ t'.predCols = t.predCols
      ∧ t'.prior.auto_scale = t.prior.auto_scale ∧ t'.prior.name = t.prior.name := by
  unfold scale_group_specific at h
  split at h
  · cases h
  · split at h
    · cases h
    · split at h
      · cases h
        exact ⟨rfl, rfl, rfl, rfl⟩
      · cases h
        exact ⟨rfl, rfl, rfl, rfl⟩

theorem scale_group_specific_idem (std : List ℚ → ℚ) (rmean rstd : ℚ) (t t' : GTerm)
    (h : scale_group_specific std rmean rstd t = .ok t') :
    scale_group_specific std rmean rstd t' = .ok t' := by
  unfold scale_group_specific at h
  split at h
  · cases h
  · rename_i v hdl
    split at h
    · cases h
    · rename_i sp hap
      split at h
      · rename_i hname
        cases h
        simp only [scale_group_specific, hdl, hap, if_pos hname]
      · rename_i hname
        cases h
        simp only [scale_group_specific]
        rw [dlookup_map_replace "sigma" _ _ v hdl]
        simp only [PValue.asPrior_toValue, PriorRep.update_name, if_neg hname]
        rw [PriorRep.update_idem _ _ (nodup_dkeys_single "sigma" _)]
        rw [map_replace_map_replace]

theorem scaleGroupStep_idem (std : List ℚ → ℚ) (rmean rstd : ℚ) (t t' : GTerm)
    (h : scaleGroupStep std rmean rstd t = .ok t') :
    scaleGroupStep std rmean rstd t' = .ok t' := by
  unfold scaleGroupStep at h ⊢
  by_cases ha : t.prior.auto_scale
  · rw [if_pos ha] at h
    have hfields := scale_group_specific_fields std rmean rstd t t' h
    rw [if_pos (by rw [hfields.2.2.1]; exact ha)]
    exact scale_group_specific_idem std rmean rstd t t' h
  · rw [if_neg ha] at h
    cases h
    rw [if_neg ha]

theorem scaleGroupStep_ttype (std : List ℚ → ℚ) (rmean rstd : ℚ) (t t' : GTerm)
    (h : scaleGroupStep std rmean rstd t = .ok t') : t'.ttype = t.ttype := by
  unfold scaleGroupStep at h
  by_cases ha : t.prior.auto_scale
  · rw [if_pos ha] at h
    exact (scale_group_specific_fields std rmean rstd t t' h).1
  · rw [if_neg ha] at h
    cases h
    rfl

theorem exceptMapM_idem {α : Type} (g : α → Except String α)
    (hg : ∀ a a', g a = .ok a' → g a' = .ok a')
    (l l' : List α) (h : l.mapM g = .ok l') : l'.mapM g = .ok l' := by
  induction l generalizing l' with
  | nil =>
    simp only [List.mapM_nil] at h
    cases h
    rfl
  | cons a as ih =>
    rw [List.mapM_cons] at h
    cases hga : g a with
    | error e =>
      rw [hga] at h
      simp only [Bind.bind, Except.bind] at h
      cases h
    | ok a' =>
      rw [hga] at h
      cases hmas : as.mapM g with
      | error e =>
        rw [hmas] at h
        simp only [Bind.bind, Except.bind] at h
        cases h
      | ok as' =>
        rw [hmas] at h
        simp only [Bind.bind, Except.bind, pure, Except.pure] at h
        cases h
        rw [List.mapM_cons, hg a a' hga, ih as' hmas]
        rfl

theorem exceptMapM_map_eq {α β : Type} (g : α → Except String α) (f : α → β)
    (hf : ∀ a a', g a = .ok a' → f a' = f a)
    (l l' : List α) (h : l.mapM g = .ok l') : l'.map f = l.map f := by
  induction l generalizing l' with
  | nil =>
    simp only [List.mapM_nil] at h
    cases h
    rfl
  | cons a as ih =>
    rw [List.mapM_cons] at h
    cases hga : g a with
    | error e =>
      rw [hga] at h
      simp only [Bind.bind, Except.bind] at h
      cases h
    | ok a' =>
      rw [hga] at h
      cases hmas : as.mapM g with
      | error e =>
        rw [hmas] at h
        simp only [Bind.bind, Except.bind] at h
        cases h
      | ok as' =>
        rw [hmas] at h
        simp only [Bind.bind, Except.bind, pure, Except.pure] at h
        cases h
        rw [List.map_cons, List.map_cons, hf a a' hga, ih as' hmas]

theorem scaleCommonStep_intercept_fix (std : List ℚ → ℚ) (rstd : ℚ) (t : BTerm)
    (h : t.ttype = "intercept") : scaleCommonStep std rstd t = t := by
  simp [scaleCommonStep, h]

theorem scaleFirstIntercept_map_step (rmean rstd : ℚ) (std : List ℚ → ℚ)
    (l : List BTerm) :
    scaleFirstIntercept rmean rstd
        ((scaleFirstIntercept rmean rstd l).map (scaleCommonStep std rstd))
      = (scaleFirstIntercept rmean rstd l).map (scaleCommonStep std rstd) := by
  induction l with
  | nil => rfl
  | cons t ts ih =>
    by_cases h : t.ttype = "intercept"
    · by_cases h2 : t.prior.auto_scale
      · have ht' : (scale_intercept rmean rstd t).ttype = "intercept" := by
          rw [scale_intercept_ttype]; exact h
        have hfix := scaleCommonStep_intercept_fix std rstd _ ht'
        simp [scaleFirstIntercept, h, h2, hfix, ht', scale_intercept_auto,
          scale_intercept_idem]
      · have hfix := scaleCommonStep_intercept_fix std rstd t h
        simp [scaleFirstIntercept, h, h2, hfix]
    · have hst : (scaleCommonStep std rstd t).ttype = t.ttype := scaleCommonStep_ttype std rstd t
      simp [scaleFirstIntercept, h, hst, ih]

theorem map_scaleCommonStep_idem (std : List ℚ → ℚ) (rstd : ℚ) (l : List BTerm) :
    (l.map (scaleCommonStep std rstd)).map (scaleCommonStep std rstd)
      = l.map (scaleCommonStep std rstd) := by
  rw [List.map_map]
  apply List.map_congr_left
  intro t _
  exact scaleCommonStep_idem std rstd t

theorem scaleCommonPhase_ttypes (rmean rstd : ℚ) (std : List ℚ → ℚ) (hi : Bool)
    (l : List BTerm) :
    (scaleCommonPhase rmean rstd std hi l).map BTerm.ttype = l.map BTerm.ttype := by
  unfold scaleCommonPhase
  have hstep : ∀ xs : List BTerm,
      (xs.map (scaleCommonStep std rstd)).map BTerm.ttype = xs.map BTerm.ttype := by
    intro xs
    rw [List.map_map]
    apply List.map_congr_left
    intro t _
    exact scaleCommonStep_ttype std rstd t
  cases hi with
  | false => simp only [if_false, Bool.false_eq_true]; exact hstep l
  | true =>
    simp only [if_true]
    rw [hstep, scaleFirstIntercept_ttypes]

theorem scaleCommonPhase_idem (rmean rstd : ℚ) (std : List ℚ → ℚ) (hi : Bool)
    (l : List BTerm) :
    scaleCommonPhase rmean rstd std hi (scaleCommonPhase rmean rstd std hi l)
      = scaleCommonPhase rmean rstd std hi l := by
  unfold scaleCommonPhase
  cases hi with
  | false =>
    simp only [if_false, Bool.false_eq_true]
    exact map_scaleCommonStep_idem std rstd l
  | true =>
    simp only [if_true]
    rw [scaleFirstIntercept_map_step, map_scaleCommonStep_idem]

theorem any_comp_map {α β : Type} (f : α → β) (p : β → Bool) (l : List α) :
    (l.map f).any p = l.any (fun a => p (f a)) := by
  induction l with
  | nil => rfl
  | cons a as ih => simp [List.any_cons, ih]

theorem all_comp_map {α β : Type} (f : α → β) (p : β → Bool) (l : List α) :
    (l.map f).all p = l.all (fun a => p (f a)) := by
  induction l with
  | nil => rfl
  | cons a as ih => simp [List.all_cons, ih]

theorem any_intercept_eq_b (l l' : List BTerm)
    (h : l.map BTerm.ttype = l'.map BTerm.ttype) :
    (l.any (fun t => t.ttype = "intercept")) = (l'.any (fun t => t.ttype = "intercept")) := by
  have h1 : (l.map BTerm.ttype).any (fun s => s = "intercept")
      = (l'.map BTerm.ttype).any (fun s => s = "intercept") := by rw [h]
  rw [any_comp_map, any_comp_map] at h1
  exact h1

theorem all_not_intercept_eq_b (l l' : List BTerm)
    (h : l.map BTerm.ttype = l'.map BTerm.ttype) :
    (l.all (fun t => ¬ t.ttype = "intercept"))
      = (l'.all (fun t => ¬ t.ttype = "intercept")) := by
  have h1 : (l.map BTerm.ttype).all (fun s => ¬ s = "intercept")
      = (l'.map BTerm.ttype).all (fun s => ¬ s = "intercept") := by rw [h]
  rw [all_comp_map, all_comp_map] at h1
  exact h1

theorem any_intercept_eq_g (l l' : List GTerm)
    (h : l.map GTerm.ttype = l'.map GTerm.ttype) :
    (l.any (fun t => t.ttype = "intercept")) = (l'.any (fun t => t.ttype = "intercept")) := by
  have h1 : (l.map GTerm.ttype).any (fun s => s = "intercept")
      = (l'.map GTerm.ttype).any (fun s => s = "intercept") := by rw [h]
  rw [any_comp_map, any_comp_map] at h1
  exact h1

theorem PriorScaler2.scale_def (mean std : List ℚ → ℚ) (m : BModel) :
    PriorScaler2.scale mean std m =
      if (m.commonTerms.any (fun t => t.ttype = "intercept")
          || m.groupTerms.any (fun t => t.ttype = "intercept"))
          && m.commonTerms.all (fun t => ¬ t.ttype = "intercept") then
        .error "IndexError: list index out of range"
      else
        match m.groupTerms.mapM (scaleGroupStep std
            (responseStats mean std m.familyName m.response.data).1
            (responseStats mean std m.familyName m.response.data).2) with
        | .error e => .error e
        | .ok gts =>
          .ok ⟨m.familyName,
            scale_response m.familyName
              (responseStats mean std m.familyName m.response.data).2 m.response,
            scaleCommonPhase (responseStats mean std m.familyName m.response.data).1
              (responseStats mean std m.familyName m.response.data).2 std
              (m.commonTerms.any (fun t => t.ttype = "intercept")
                || m.groupTerms.any (fun t => t.ttype = "intercept")) m.commonTerms,
            gts⟩ := rfl

/-- Claim C6: for every model with fixed training data, running the prior
auto-scaling pass (`PriorScaler2.scale`) a second time on the result of
a successful first run returns exactly the first run's result: the pass
is idempotent. -/
theorem priorscaler2_scale_idem (mean std : List ℚ → ℚ) (m m₁ : BModel)
    (h : PriorScaler2.scale mean std m = .ok m₁) :
    PriorScaler2.scale mean std m₁ = .ok m₁ := by
  rw [PriorScaler2.scale_def] at h
  by_cases hcond : ((m.commonTerms.any (fun t => t.ttype = "intercept")
      || m.groupTerms.any (fun t => t.ttype = "intercept"))
      && m.commonTerms.all (fun t => ¬ t.ttype = "intercept")) = true
  · rw [if_pos hcond] at h
    cases h
  · rw [if_neg hcond] at h
    cases hg : m.groupTerms.mapM (scaleGroupStep std
        (responseStats mean std m.familyName m.response.data).1
        (responseStats mean std m.familyName m.response.data).2) with
    | error e =>
      rw [hg] at h
      cases h
    | ok gts =>
      rw [hg] at h
      cases h
      have hdata : (scale_response m.familyName
          (responseStats mean std m.familyName m.response.data).2 m.response).data
            = m.response.data := scale_response_data _ _ _
      rw [PriorScaler2.scale_def]
      dsimp only
      rw [hdata]
      have hcommon_tt := scaleCommonPhase_ttypes
        (responseStats mean std m.familyName m.response.data).1
        (responseStats mean std m.familyName m.response.data).2 std
        (m.commonTerms.any (fun t => t.ttype = "intercept")
          || m.groupTerms.any (fun t => t.ttype = "intercept")) m.commonTerms
      have hgroup_tt := exceptMapM_map_eq _ GTerm.ttype
        (fun a a' ha => scaleGroupStep_ttype std
          (responseStats mean std m.familyName m.response.data).1
          (responseStats mean std m.familyName m.response.data).2 a a' ha)
        _ _ hg
      rw [any_intercept_eq_b _ _ hcommon_tt, all_not_intercept_eq_b _ _ hcommon_tt,
        any_intercept_eq_g _ _ hgroup_tt]
      rw [if_neg hcond]
      rw [exceptMapM_idem _
        (fun a a' ha => scaleGroupStep_idem std
          (responseStats mean std m.familyName m.response.data).1
          (responseStats mean std m.familyName m.response.data).2 a a' ha)
        _ _ hg]
      rw [scale_response_idem, scaleCommonPhase_idem]

/-- A concrete stand-in for `np.mean` used in witnesses. -/
def meanW : List ℚ → ℚ := fun l => l.sum

/-- A concrete stand-in for `np.std` used in witnesses. -/
def stdW : List ℚ → ℚ := fun _ => 2

/-- A concrete model: gaussian family, intercept + one numeric common
term, one group-specific term with a HalfNormal sigma hyperprior. -/
def mW : BModel where
  familyName := "gaussian"
  response := ⟨[1, 2, 3], ⟨"Normal", true, [("mu", .num 0), ("sigma", .num 1)]⟩⟩
  commonTerms :=
    [⟨"intercept", [[1, 1, 1]], ⟨"Normal", true, []⟩⟩,
     ⟨"numeric", [[1, 2, 3]], ⟨"Normal", true, []⟩⟩]
  groupTerms :=
    [⟨"numeric", [[1, 0, 1]],
      ⟨"Normal", true, [("sigma", PValue.pr "HalfNormal" true [("sigma", .num 1)])]⟩⟩]

/-- The result of the first scaling pass on `mW`. -/
def scaledW : BModel :=
  match PriorScaler2.scale meanW stdW mW with
  | .ok m => m
  | .error _ => mW

/-- Witness for C6: on the concrete model `mW` the first pass succeeds
and a second pass reproduces its result exactly. -/
theorem priorscaler2_scale_idem_witness :
    PriorScaler2.scale meanW stdW scaledW = Except.ok scaledW :=
  priorscaler2_scale_idem meanW stdW mW scaledW rfl

/-- Claim C5: for every common non-intercept term with an auto-scaled
prior named "Normal", the scaler stores (squeezed, per `Prior.update`)
a zero vector for `mu` with one entry per design-matrix column, and a
`sigma` whose entry for column `i` is `2.5 * (response std / std of
column i)`; a term whose prior name is not "Normal" is left completely
unchanged. -/
theorem scale_common_rule (std : List ℚ → ℚ) (rstd : ℚ) (t : BTerm) :
    (t.ttype ≠ "intercept" → t.prior.auto_scale = true → t.prior.name = "Normal" →
      dlookup "mu" (scaleCommonStep std rstd t).prior.args
          = some (squeezePV (PValue.arr [t.cols.length] (List.replicate t.cols.length 0)))
        ∧ dlookup "sigma" (scaleCommonStep std rstd t).prior.args
          = some (squeezePV (PValue.arr [t.cols.length]
              (t.cols.map (fun x => scalerSTD * (rstd / std x))))))
    ∧ (t.prior.name ≠ "Normal" → scaleCommonStep std rstd t = t) := by
  constructor
  · intro htype hauto hname
    simp only [scaleCommonStep, htype, if_false, hauto, if_true]
    simp only [scale_common, hname, ne_eq, not_true_eq_false, if_false,
      get_slope_sigma, PriorRep.update]
    constructor
    · apply dlookup_dictUpdate_mem
      · rw [dkeys_map_squeeze]
        exact nodup_dkeys_pair "mu" "sigma" _ _ (by decide)
      · exact List.mem_cons_self _ _
    · apply dlookup_dictUpdate_mem
      · rw [dkeys_map_squeeze]
        exact nodup_dkeys_pair "mu" "sigma" _ _ (by decide)
      · exact List.Mem.tail _ (List.mem_cons_self _ _)
  · intro hname
    by_cases h1 : t.ttype = "intercept"
    · simp [scaleCommonStep, h1]
    · by_cases h2 : t.prior.auto_scale
      · simp [scaleCommonStep, h1, h2, scale_common, hname]
      · simp [scaleCommonStep, h1, h2]

/-- A concrete two-column numeric term with a default Normal prior. -/
def tW : BTerm := ⟨"numeric", [[1, 2, 3], [4, 5, 6]], ⟨"Normal", true, []⟩⟩

/-- Witness for C5 at a concrete term: the stored `mu` is the zero
vector of length two and `sigma` is `2.5 * (3 / 2)` per column. -/
theorem scale_common_rule_witness :
    dlookup "mu" (scaleCommonStep (fun _ => 2) 3 tW).prior.args
        = some (PValue.arr [2] [0, 0])
    ∧ dlookup "sigma" (scaleCommonStep (fun _ => 2) 3 tW).prior.args
        = some (PValue.arr [2] [scalerSTD * (3 / 2), scalerSTD * (3 / 2)]) := by
  have h := (scale_common_rule (fun _ => 2) 3 tW).1 (by decide) rfl rfl
  exact ⟨h.1.trans rfl, h.2.trans rfl⟩

/-! ### Likelihood construction (`families/likelihood.py`) -/

/-- The known-distribution registry `DISTRIBUTIONS`: name, params,
parent. -/
def DISTRIBUTIONS : List (String × List String × String) :=
  [("Bernoulli", ["p"], "p"),
   ("Beta", ["mu", "kappa"], "mu"),
   ("Binomial", ["p"], "p"),
   ("Categorical", ["p"], "p"),
   ("Gamma", ["mu", "alpha"], "mu"),
   ("Multinomial", ["p"], "p"),
   ("Normal", ["mu", "sigma"], "mu"),
   ("NegativeBinomial", ["mu", "alpha"], "mu"),
   ("Laplace", ["mu", "b"], "mu"),
   ("Poisson", ["mu"], "mu"),
   ("StudentT", ["mu", "sigma"], "mu"),
   ("VonMises", ["mu", "kappa"], "mu"),
   ("Wald", ["mu", "lam"], "mu")]

/-- Registry lookup, `self.name in self.DISTRIBUTIONS` plus access. -/
def distLookup (name : String) : Option (List String × String) :=
  (DISTRIBUTIONS.find? (fun e => e.1 = name)).map Prod.snd

/-- The state of a constructed `Likelihood`: name, stored `_params`,
stored `_parent` (the `dist` field plays no role in validation). -/
structure LikelihoodRep where
  name : String
  params : Option (List String)
  parent : Option String
deriving DecidableEq, Repr

/-- Embedding of the `Likelihood.params` setter: for a registered name,
a missing value defaults to the registry params and a supplied value
must be set-equal to them; otherwise no check is done. -/
def likelihoodSetParams (name : String) (value : Option (List String)) :
    Except String (Option (List String)) :=
  match distLookup name with
  | some (ps, _) =>
    match value with
    | none => .ok (some ps)
    | some v =>
      if v.all (fun p => p ∈ ps) && ps.all (fun p => p ∈ v) then .ok (some v)
      else .error ("ValueError: does not match the parameters of " ++ name)
  | none => .ok value

/-- Embedding of the `Likelihood.parent` setter: for a registered name,
a missing value defaults to the registry parent and a supplied value
must be one of the registry params.  For an unknown name the code still
evaluates `value not in self.params`: when the stored params are `None`
this is a `TypeError`, when the value is `None` or not a member it is a
`ValueError`. -/
def likelihoodSetParent (name : String) (params : Option (List String))
    (value : Option String) : Except String (Option String) :=
  match distLookup name with
  | some (ps, par) =>
    match value with
    | none => .ok (some par)
    | some v =>
      if v ∈ ps then .ok (some v)
      else .error ("ValueError: " ++ v ++ " is not a valid parameter for the likelihood " ++ name)
  | none =>
    match params with
    | none => .error "TypeError: argument of type NoneType is not iterable"
    | some ps =>
      match value with
      | none => .error "ValueError: None must be one of the params"
      | some v =>
        if v ∈ ps then .ok (some v)
        else .error ("ValueError: " ++ v ++ " must be one of the params")

/-- Embedding of `Likelihood.__init__`: the params setter runs first,
then the parent setter (reading the stored params). -/
def likelihoodInit (name : String) (params : Option (List String))
    (parent : Option String) : Except String LikelihoodRep := do
  let ps ← likelihoodSetParams name params
  let par ← likelihoodSetParent name ps parent
  pure ⟨name, ps, par⟩

/-- Counterexample to C2: "CustomDist" is not in the registry, yet
construction with a parent outside the supplied params raises, and
construction with params and parent left unspecified raises too —
unknown names do get their `parent` validated. -/
theorem likelihood_unknown_counterexample :
    distLookup "CustomDist" = none
    ∧ likelihoodInit "CustomDist" (some ["a", "b"]) (some "c")
        = .error "ValueError: c must be one of the params"
    ∧ likelihoodInit "CustomDist" none none
        = .error "TypeError: argument of type NoneType is not iterable" := by
  refine ⟨rfl, rfl, rfl⟩

/-- Claim C2 as amended: for an unknown likelihood name, `params` is
stored as given without registry validation, but the `parent` setter
still checks membership in `params`: construction succeeds exactly when
both are supplied and the parent belongs to the params, and otherwise
raises. -/
theorem likelihood_unknown_rule (name : String) (hname : distLookup name = none) :
    (∀ (ps : List String) (v : String), v ∈ ps →
      likelihoodInit name (some ps) (some v) = .ok ⟨name, some ps, some v⟩)
    ∧ (∀ (ps : List String) (v : String), v ∉ ps →
      likelihoodInit name (some ps) (some v)
        = .error ("ValueError: " ++ v ++ " must be one of the params"))
    ∧ (∀ ps : List String, likelihoodInit name (some ps) none
        = .error "ValueError: None must be one of the params")
    ∧ (∀ parent : Option String, likelihoodInit name none parent
        = .error "TypeError: argument of type NoneType is not iterable") := by
  refine ⟨?_, ?_, ?_, ?_⟩
  · intro ps v hv
    simp [likelihoodInit, likelihoodSetParams, likelihoodSetParent, hname,
      Bind.bind, Except.bind, hv, pure, Except.pure]
  · intro ps v hv
    simp [likelihoodInit, likelihoodSetParams, likelihoodSetParent, hname,
      Bind.bind, Except.bind, hv, pure, Except.pure]
  · intro ps
    simp [likelihoodInit, likelihoodSetParams, likelihoodSetParent, hname,
      Bind.bind, Except.bind, pure, Except.pure]
  · intro parent
    simp [likelihoodInit, likelihoodSetParams, likelihoodSetParent, hname,
      Bind.bind, Except.bind, pure, Except.pure]

/-- Witness for the amended C2 at concrete inputs. -/
theorem likelihood_unknown_rule_witness :
    likelihoodInit "CustomDist" (some ["a", "b"]) (some "a")
      = .ok ⟨"CustomDist", some ["a", "b"], some "a"⟩
    ∧ likelihoodInit "CustomDist" (some ["a", "b"]) (some "z")
      = .error "ValueError: z must be one of the params" := by
  have h := likelihood_unknown_rule "CustomDist" rfl
  exact ⟨h.1 ["a", "b"] "a" (by decide), h.2.1 ["a", "b"] "z" (by decide)⟩

/-! ### The Family.link setter (`families/family.py`) -/

/-- A `Link` instance, identified by its name (custom instances carry
whatever name they were built with). -/
structure LinkRep where
  name : String
deriving DecidableEq, Repr

/-- A value appearing inside a link mapping: a string, a `Link`
instance, or anything else (which the setter rejects). -/
inductive LinkSpecItem where
  | s : String → LinkSpecItem
  | l : LinkRep → LinkSpecItem
  | other : LinkSpecItem
deriving DecidableEq, Repr

/-- The value assigned to `Family.link`: a single string, a single
`Link` instance, or a mapping from parameter names. -/
inductive LinkSpec where
  | s : String → LinkSpec
  | l : LinkRep → LinkSpec
  | dict : List (String × LinkSpecItem) → LinkSpec
deriving DecidableEq, Repr

/-- `Family.SUPPORTED_LINKS` for the base class (a plain list). -/
def SUPPORTED_LINKS : List String :=
  ["cloglog", "identity", "inverse_squared", "inverse", "log", "logit",
   "probit", "softmax", "tan_2"]

/-- Embedding of `Family.check_string_link` for the base class, where
`SUPPORTED_LINKS` is a list. -/
def check_string_link (link_name param_name : String) : Except String LinkRep :=
  if link_name ∈ SUPPORTED_LINKS then .ok ⟨link_name⟩
  else .error ("Link " ++ link_name ++ " cannot be used for " ++ param_name)

/-- Conversion of one entry of the link mapping, as done by the loop in
the `Family.link` setter. -/
def linkConvert (kv : String × LinkSpecItem) : Except String (String × LinkSpecItem) :=
  match kv.2 with
  | .s sname => (check_string_link sname kv.1).map (fun lr => (kv.1, LinkSpecItem.l lr))
  | .l lr => .ok (kv.1, LinkSpecItem.l lr)
  | .other => .error "'.link' must be set to a string or a Link instance."

/-- Embedding of the `Family.link` setter: a bare string or `Link` is
wrapped into a one-entry dict keyed by the likelihood's parent, then
every entry is converted (strings are checked and turned into `Link`
instances). -/
def familyLinkSetter (parent : String) (value : LinkSpec) :
    Except String (List (String × LinkSpecItem)) :=
  let items : List (String × LinkSpecItem) :=
    match value with
    | .s x => [(parent, .s x)]
    | .l x => [(parent, .l x)]
    | .dict mp => mp
  items.mapM linkConvert

theorem linkConvert_shape (kv kv' : String × LinkSpecItem)
    (h : linkConvert kv = .ok kv') :
    kv'.1 = kv.1 ∧ ∃ lr, kv'.2 = LinkSpecItem.l lr := by
  unfold linkConvert at h
  split at h
  · rename_i sname hs
    unfold check_string_link at h
    split at h
    · cases h
      exact ⟨rfl, _, rfl⟩
    · cases h
  · rename_i lr hl
    cases h
    exact ⟨rfl, _, rfl⟩
  · cases h

theorem linkItems_mapM_shape (items links : List (String × LinkSpecItem))
    (h : items.mapM linkConvert = .ok links) :
    links.map Prod.fst = items.map Prod.fst
      ∧ ∀ kv ∈ links, ∃ lr, kv.2 = LinkSpecItem.l lr := by
  induction items generalizing links with
  | nil =>
    simp only [List.mapM_nil] at h
    cases h
    exact ⟨rfl, fun kv hkv => absurd hkv (List.not_mem_nil kv)⟩
  | cons a as ih =>
    rw [List.mapM_cons] at h
    cases hga : linkConvert a with
    | error e =>
      rw [hga] at h
      simp only [Bind.bind, Except.bind] at h
      cases h
    | ok a' =>
      rw [hga] at h
      cases hmas : as.mapM linkConvert with
      | error e =>
        rw [hmas] at h
        simp only [Bind.bind, Except.bind] at h
        cases h
      | ok as' =>
        rw [hmas] at h
        simp only [Bind.bind, Except.bind, pure, Except.pure] at h
        cases h
        obtain ⟨hfst, hshape⟩ := linkConvert_shape a a' hga
        obtain ⟨ihfst, ihshape⟩ := ih as' hmas
        constructor
        · rw [List.map_cons, List.map_cons, hfst, ihfst]
        · intro kv hkv
          rcases List.mem_cons.mp hkv with hh | hh
          · exact hh ▸ hshape
          · exact ihshape kv hh

/-- Claim C10: after every successful assignment to `Family.link`, the
stored mapping has only `Link` instances as values (strings are
converted), and a non-dict value is stored under exactly one key, the
likelihood's parent parameter. -/
theorem family_link_setter_invariant (parent : String) (value : LinkSpec)
    (links : List (String × LinkSpecItem))
    (h : familyLinkSetter parent value = .ok links) :
    (∀ kv ∈ links, ∃ lr, kv.2 = LinkSpecItem.l lr)
    ∧ (∀ x, value = LinkSpec.s x → links.map Prod.fst = [parent])
    ∧ (∀ x, value = LinkSpec.l x → links.map Prod.fst = [parent]) := by
  refine ⟨?_, ?_, ?_⟩
  · intro kv hkv
    unfold familyLinkSetter at h
    exact (linkItems_mapM_shape _ links h).2 kv hkv
  · intro x hx
    subst hx
    unfold familyLinkSetter at h
    exact (linkItems_mapM_shape _ links h).1
  · intro x hx
    subst hx
    unfold familyLinkSetter at h
    exact (linkItems_mapM_shape _ links h).1

/-- Witness for C10: assigning the bare string "logit" with parent "mu"
stores a single `Link` instance under "mu". -/
theorem family_link_setter_invariant_witness :
    familyLinkSetter "mu" (LinkSpec.s "logit") = .ok [("mu", LinkSpecItem.l ⟨"logit"⟩)]
    ∧ (∀ kv ∈ [("mu", LinkSpecItem.l (⟨"logit"⟩ : LinkRep))], ∃ lr, kv.2 = LinkSpecItem.l lr)
    ∧ [("mu", LinkSpecItem.l (⟨"logit"⟩ : LinkRep))].map Prod.fst = ["mu"] := by
  have h := family_link_setter_invariant "mu" (LinkSpec.s "logit")
    [("mu", LinkSpecItem.l ⟨"logit"⟩)] rfl
  exact ⟨rfl, h.1, h.2.1 "logit" rfl⟩

/-! ### Grid construction (`plots/utils.py`) -/

/-- A pandas/numpy column as the plotting utilities see it: numeric
data, string data, or categorical data (with the observed values). -/
inductive NpColumn where
  | numeric : List ℚ → NpColumn
  | strings : List String → NpColumn
  | categorical : List String → NpColumn

/-- Lexicographic comparison of character lists by code point (the
order on Python/numpy strings), written so that it evaluates. -/
def charListLe : List Char → List Char → Bool
  | [], _ => true
  | _ :: _, [] => false
  | x :: xs, y :: ys =>
    if x.toNat < y.toNat then true
    else if y.toNat < x.toNat then false
    else charListLe xs ys

/-- Lexicographic order on strings. -/
def strLeB (a b : String) : Bool := charListLe a.data b.data

/-- Insertion of a string into a sorted list, used to model the sorted
output of `np.unique`. -/
def insertSorted (x : String) : List String → List String
  | [] => [x]
  | y :: ys => if strLeB x y then x :: y :: ys else y :: insertSorted x ys

/-- Model of `np.unique` on strings: the distinct values in sorted
order. -/
def npUnique (l : List String) : List String :=
  l.eraseDups.foldr insertSorted []

/-- Model of `np.linspace(start, stop, num)` with the default
`endpoint=True`: `num` evenly spaced samples whose last sample is set
to `stop` exactly. -/
def npLinspace (a b : ℚ) (n : ℕ) : List ℚ :=
  if n = 0 then []
  else if n = 1 then [a]
  else (List.range n).map (fun i => if i = n - 1 then b else a + i * ((b - a) / (n - 1)))

/-- The result of `make_main_values`: a numeric grid or the unique
levels of a categorical variable. -/
inductive MainValues where
  | nums : List ℚ → MainValues
  | strs : List String → MainValues

/-- Embedding of `make_main_values` from `plots/utils.py`: an evenly
spaced grid over `[min, max]` for numeric columns, the unique levels
for string or categorical columns (`np.min`/`np.max` fail on an empty
column). -/
def make_main_values (x : NpColumn) (grid_n : ℕ) : Except String MainValues :=
  match x with
  | .numeric xs =>
    match xs.min?, xs.max? with
    | some a, some b => .ok (.nums (npLinspace a b grid_n))
    | _, _ => .error "ValueError: zero-size array to reduction operation"
  | .strings xs => .ok (.strs (npUnique xs))
  | .categorical xs => .ok (.strs (npUnique xs))

theorem npLinspace_length (a b : ℚ) (n : ℕ) : (npLinspace a b n).length = n := by
  by_cases h0 : n = 0
  · simp [npLinspace, h0]
  · by_cases h1 : n = 1
    · simp [npLinspace, h0, h1]
    · simp [npLinspace, h0, h1]

theorem npLinspace_head (a b : ℚ) (n : ℕ) (hn : 2 ≤ n) :
    (npLinspace a b n).head? = some a := by
  have h0 : n ≠ 0 := by omega
  have h1 : n ≠ 1 := by omega
  have h2 : ¬ ((0 : ℕ) = n - 1) := by omega
  simp [npLinspace, h0, h1, List.head?_map, List.head?_range, h2]

theorem npLinspace_getLast (a b : ℚ) (n : ℕ) (hn : 2 ≤ n) :
    (npLinspace a b n).getLast? = some b := by
  have h0 : n ≠ 0 := by omega
  have h1 : n ≠ 1 := by omega
  obtain ⟨m, rfl⟩ : ∃ m, n = m + 1 := ⟨n - 1, by omega⟩
  simp only [npLinspace, h0, h1, if_false]
  rw [List.range_succ, List.map_append, List.map_cons, List.map_nil,
    List.getLast?_concat]
  simp

theorem npLinspace_chain (a b : ℚ) (n : ℕ) (hab : a ≤ b) (hn : 2 ≤ n) :
    List.Chain' (· ≤ ·) (npLinspace a b n) := by
  have h0 : n ≠ 0 := by omega
  have h1 : n ≠ 1 := by omega
  obtain ⟨m, rfl⟩ : ∃ m, n = m + 1 := ⟨n - 1, by omega⟩
  simp only [npLinspace, h0, h1, if_false]
  rw [List.chain'_map, List.chain'_range_succ]
  intro i hi
  have hm : 1 ≤ m := by omega
  have hmq : (1 : ℚ) ≤ (m : ℚ) := by exact_mod_cast hm
  have hden : ((m + 1 : ℕ) : ℚ) - 1 = (m : ℚ) := by push_cast; ring
  have hs : 0 ≤ (b - a) / (m : ℚ) := div_nonneg (by linarith) (by linarith)
  have hkey : ∀ j : ℕ, (j : ℚ) ≤ (m : ℚ) → a + j * ((b - a) / (m : ℚ)) ≤ b := by
    intro j hj
    have hmul : (j : ℚ) * ((b - a) / (m : ℚ)) ≤ (m : ℚ) * ((b - a) / (m : ℚ)) :=
      mul_le_mul_of_nonneg_right hj hs
    have hmm : (m : ℚ) * ((b - a) / (m : ℚ)) = b - a := by
      field_simp
    linarith
  have hne : ¬ (i = m + 1 - 1) := by omega
  rw [if_neg hne, hden]
  by_cases hc : i.succ = m + 1 - 1
  · rw [if_pos hc]
    exact hkey i (by exact_mod_cast Nat.le_of_lt hi)
  · rw [if_neg hc]
    have hstep : (i : ℚ) ≤ ((i.succ : ℕ) : ℚ) := by exact_mod_cast Nat.le_succ i
    have := mul_le_mul_of_nonneg_right hstep hs
    linarith

/-- Claim C9: for every nonempty numeric column and every grid size of
at least two, `make_main_values` returns an evenly spaced grid of
exactly `grid_n` values, monotonically increasing, whose first element
is the observed minimum and whose last element is the observed
maximum. -/
theorem make_main_values_grid (xs : List ℚ) (a b : ℚ) (grid_n : ℕ)
    (ha : xs.min? = some a) (hb : xs.max? = some b) (hn : 2 ≤ grid_n) :
    make_main_values (NpColumn.numeric xs) grid_n
        = .ok (MainValues.nums (npLinspace a b grid_n))
    ∧ (npLinspace a b grid_n).length = grid_n
    ∧ List.Chain' (· ≤ ·) (npLinspace a b grid_n)
    ∧ (npLinspace a b grid_n).head? = some a
    ∧ (npLinspace a b grid_n).getLast? = some b := by
  have hab : a ≤ b := by
    have h1 : a ∈ xs := List.min?_mem (fun x y => min_choice x y) ha
    have h2 : ∀ x ∈ xs, x ≤ b :=
      (List.max?_le_iff (fun x y z => sup_le_iff) hb).mp (le_refl b)
    exact h2 a h1
  refine ⟨?_, npLinspace_length a b grid_n, npLinspace_chain a b grid_n hab hn,
    npLinspace_head a b grid_n hn, npLinspace_getLast a b grid_n hn⟩
  simp [make_main_values, ha, hb]

/-- Witness for C9 at the column `[3, 1, 2]` with the default grid size
50. -/
theorem make_main_values_grid_witness :
    make_main_values (NpColumn.numeric [3, 1, 2]) 50
        = .ok (MainValues.nums (npLinspace 1 3 50))
    ∧ (npLinspace 1 3 50).length = 50
    ∧ List.Chain' (· ≤ ·) (npLinspace 1 3 50)
    ∧ (npLinspace 1 3 50).head? = some 1
    ∧ (npLinspace 1 3 50).getLast? = some 3 :=
  make_main_values_grid [3, 1, 2] 1 3 50 rfl rfl (by decide)

/-! ### Default values for unrequested covariates (`set_default_values`) -/

/-- A value held in the prediction-grid dict: a scalar (numeric or
level) or an array of values. -/
inductive GridVal where
  | num : ℚ → GridVal
  | str : String → GridVal
  | nums : List ℚ → GridVal
  | strs : List String → GridVal
deriving DecidableEq, Repr

/-- One formula component as walked by `set_default_values`: the
variable names it contributes (one, or the call-argument names for a
`Call`) and its kind. -/
structure TermComponent where
  names : List String
  kind : String

/-- Key membership in the grid dict. -/
def gmem (k : String) (d : List (String × GridVal)) : Bool :=
  d.any (fun kv => kv.1 = k)

/-- Lookup in the grid dict. -/
def glookup (k : String) (d : List (String × GridVal)) : Option GridVal :=
  (d.find? (fun kv => kv.1 = k)).map Prod.snd

/-- Column lookup in the model data frame. -/
def colLookup (k : String) (data : List (String × NpColumn)) : Option NpColumn :=
  (data.find? (fun kv => kv.1 = k)).map Prod.snd

/-- Model of `np.mean`. -/
def npMean (xs : List ℚ) : ℚ := xs.sum / xs.length

/-- Model of `statistics.mode`: the most frequent element; ties are
resolved to the first mode encountered in the data (the behaviour of
`Counter.most_common`, which `statistics.mode` is built on).  `none`
models the `StatisticsError` on empty data. -/
def pymode {α : Type} [DecidableEq α] (l : List α) : Option α :=
  l.eraseDups.foldl (fun best x =>
    match best with
    | none => some x
    | some b => if l.count b < l.count x then some x else best) none

/-- The default value `set_default_values` computes for one variable:
`np.mean` for numeric components, `statistics.mode` for categoric
components, nothing for any other kind. -/
def defaultForComponent (data : List (String × NpColumn)) (n kind : String) :
    Except String (Option GridVal) :=
  if kind = "numeric" then
    match colLookup n data with
    | none => .error "KeyError"
    | some (.numeric xs) => .ok (some (.num (npMean xs)))
    | some _ => .error "TypeError: cannot compute the mean of a non-numeric column"
  else if kind = "categoric" then
    match colLookup n data with
    | none => .error "KeyError"
    | some (.numeric xs) =>
      match pymode xs with
      | some m => .ok (some (.num m))
      | none => .error "StatisticsError: no mode for empty data"
    | some (.strings xs) =>
      match pymode xs with
      | some m => .ok (some (.str m))
      | none => .error "StatisticsError: no mode for empty data"
    | some (.categorical xs) =>
      match pymode xs with
      | some m => .ok (some (.str m))
      | none => .error "StatisticsError: no mode for empty data"
  else .ok none

/-- The inner loop of `set_default_values` over the names of one
component: a name already present in the dict is skipped, otherwise its
default value is appended. -/
def setDefaultsNames (data : List (String × NpColumn)) (kind : String) :
    List String → List (String × GridVal) → Except String (List (String × GridVal))
  | [], dict => .ok dict
  | n :: ns, dict =>
    if gmem n dict then setDefaultsNames data kind ns dict
    else
      match defaultForComponent data n kind with
      | .error e => .error e
      | .ok none => setDefaultsNames data kind ns dict
      | .ok (some v) => setDefaultsNames data kind ns (dict ++ [(n, v)])

/-- The outer loop of `set_default_values` over all components. -/
def setDefaultsLoop (data : List (String × NpColumn)) :
    List TermComponent → List (String × GridVal) →
      Except String (List (String × GridVal))
  | [], dict => .ok dict
  | c :: cs, dict =>
    match setDefaultsNames data c.kind c.names dict with
    | .error e => .error e
    | .ok dict1 => setDefaultsLoop data cs dict1

/-- Listification applied to dict values in the `"comparison"` case. -/
def gridListify : GridVal → GridVal
  | .num x => .nums [x]
  | .str s => .strs [s]
  | v => v

/-- Embedding of `set_default_values` from `plots/utils.py`: asserts the
kind, fills defaults for every model variable not already in the dict,
and for `"comparison"` wraps scalar values into singleton lists. -/
def set_default_values (data : List (String × NpColumn)) (comps : List TermComponent)
    (dict : List (String × GridVal)) (kind : String) :
    Except String (List (String × GridVal)) :=
  if kind = "comparison" ∨ kind = "predictions" then
    match setDefaultsLoop data comps dict with
    | .error e => .error e
    | .ok d =>
      if kind = "comparison" then .ok (d.map (fun kv => (kv.1, gridListify kv.2)))
      else .ok d
  else .error "AssertionError: kind must be either comparison or predictions"

/-- Modelled from the spec: the tie-break the spec asks for — the mode
taken as the first/lowest level in sorted order (the most frequent
level, lexicographically smallest among ties). -/
def specSortedMode (l : List String) : Option String :=
  pymode (l.foldr insertSorted [])

theorem gmem_append (k : String) (d e : List (String × GridVal)) :
    gmem k (d ++ e) = (gmem k d || gmem k e) := by
  simp [gmem, List.any_append]

theorem gfind?_eq_none (k : String) (d : List (String × GridVal))
    (h : gmem k d = false) : d.find? (fun kv => kv.1 = k) = none := by
  rw [List.find?_eq_none]
  intro kv hkv
  simp only [gmem, List.any_eq_false, decide_eq_true_eq] at h
  simpa using h kv hkv

theorem glookup_append_not_mem (k : String) (d e : List (String × GridVal))
    (h : gmem k d = false) : glookup k (d ++ e) = glookup k e := by
  unfold glookup
  rw [List.find?_append, gfind?_eq_none k d h]
  rfl

theorem glookup_append_mem (k : String) (d e : List (String × GridVal))
    (h : gmem k d = true) : glookup k (d ++ e) = glookup k d := by
  unfold glookup
  rw [List.find?_append]
  obtain ⟨kv, hkv, hpk⟩ : ∃ kv ∈ d, kv.1 = k := by
    simpa [gmem, List.any_eq_true] using h
  cases hfind : d.find? (fun kv => kv.1 = k) with
  | none =>
    rw [List.find?_eq_none] at hfind
    exact absurd (by simpa using hpk) (hfind kv hkv)
  | some kv' =>
    rfl

theorem glookup_append_single (k : String) (v : GridVal) (d : List (String × GridVal))
    (h : gmem k d = false) : glookup k (d ++ [(k, v)]) = some v := by
  rw [glookup_append_not_mem k d _ h]
  simp [glookup]

theorem setDefaultsNames_preserve (data : List (String × NpColumn)) (kind : String)
    (ns : List String) (dict res : List (String × GridVal)) (k : String)
    (hk : gmem k dict = true)
    (h : setDefaultsNames data kind ns dict = .ok res) :
    glookup k res = glookup k dict ∧ gmem k res = true := by
  induction ns generalizing dict with
  | nil =>
    cases h
    exact ⟨rfl, hk⟩
  | cons n rest ih =>
    unfold setDefaultsNames at h
    split at h
    · exact ih dict hk h
    · split at h
      · cases h
      · exact ih dict hk h
      · rename_i v hv
        have hk' : gmem k (dict ++ [(n, v)]) = true := by
          rw [gmem_append, hk]
          rfl
        obtain ⟨h1, h2⟩ := ih (dict ++ [(n, v)]) hk' h
        exact ⟨h1.trans (glookup_append_mem k dict _ hk), h2⟩

theorem setDefaultsNames_untouched (data : List (String × NpColumn)) (kind : String)
    (ns : List String) (dict res : List (String × GridVal)) (k : String)
    (hk : gmem k dict = false) (hns : k ∉ ns)
    (h : setDefaultsNames data kind ns dict = .ok res) :
    gmem k res = false := by
  induction ns generalizing dict with
  | nil =>
    cases h
    exact hk
  | cons n rest ih =>
    have hkn : k ≠ n := fun he => hns (by rw [he]; exact List.mem_cons_self n rest)
    have hrest : k ∉ rest := fun he => hns (List.Mem.tail n he)
    unfold setDefaultsNames at h
    split at h
    · exact ih dict hk hrest h
    · split at h
      · cases h
      · exact ih dict hk hrest h
      · rename_i v hv
        have hsingle : gmem k [(n, v)] = false := by
          simp only [gmem, List.any_cons, List.any_nil, Bool.or_false,
            decide_eq_false_iff_not]
          exact fun he => hkn he.symm
        have hk' : gmem k (dict ++ [(n, v)]) = false := by
          rw [gmem_append, hk, hsingle]
          rfl
        exact ih (dict ++ [(n, v)]) hk' hrest h

theorem setDefaultsNames_sets (data : List (String × NpColumn)) (kind : String)
    (ns : List String) (dict res : List (String × GridVal)) (n : String) (v : GridVal)
    (hn : gmem n dict = false) (hmem : n ∈ ns)
    (hdef : defaultForComponent data n kind = .ok (some v))
    (h : setDefaultsNames data kind ns dict = .ok res) :
    glookup n res = some v ∧ gmem n res = true := by
  induction ns generalizing dict with
  | nil => cases hmem
  | cons m rest ih =>
    unfold setDefaultsNames at h
    by_cases hm : m = n
    · subst hm
      rw [if_neg (by rw [hn]; exact Bool.false_ne_true)] at h
      rw [hdef] at h
      have hlk : glookup m (dict ++ [(m, v)]) = some v := glookup_append_single m v dict hn
      have hmm : gmem m (dict ++ [(m, v)]) = true := by
        rw [gmem_append]
        simp [gmem]
      obtain ⟨h1, h2⟩ := setDefaultsNames_preserve data kind rest _ res m hmm h
      exact ⟨h1.trans hlk, h2⟩
    · have hmem' : n ∈ rest := by
        rcases List.mem_cons.mp hmem with he | he
        · exact absurd he.symm hm
        · exact he
      split at h
      · exact ih dict hn hmem' h
      · split at h
        · cases h
        · exact ih dict hn hmem' h
        · rename_i w hw
          have hn' : gmem n (dict ++ [(m, w)]) = false := by
            have hsingle : gmem n [(m, w)] = false := by
              simp only [gmem, List.any_cons, List.any_nil, Bool.or_false,
                decide_eq_false_iff_not]
              exact hm
            rw [gmem_append, hn, hsingle]
            rfl
          exact ih (dict ++ [(m, w)]) hn' hmem' h

theorem setDefaultsLoop_preserve (data : List (String × NpColumn))
    (comps : List TermComponent) (dict res : List (String × GridVal)) (k : String)
    (hk : gmem k dict = true)
    (h : setDefaultsLoop data comps dict = .ok res) :
    glookup k res = glookup k dict := by
  induction comps generalizing dict with
  | nil =>
    cases h
    rfl
  | cons c cs ih =>
    unfold setDefaultsLoop at h
    split at h
    · cases h
    · rename_i dict1 h1
      obtain ⟨ha, hb⟩ := setDefaultsNames_preserve data c.kind c.names dict dict1 k hk h1
      exact (ih dict1 hb h).trans ha

theorem setDefaultsLoop_sets (data : List (String × NpColumn))
    (comps : List TermComponent) (dict res : List (String × GridVal))
    (n : String) (v : GridVal)
    (hn : gmem n dict = false)
    (hsome : ∃ c ∈ comps, n ∈ c.names)
    (hall : ∀ c ∈ comps, n ∈ c.names → defaultForComponent data n c.kind = .ok (some v))
    (h : setDefaultsLoop data comps dict = .ok res) :
    glookup n res = some v := by
  induction comps generalizing dict with
  | nil =>
    obtain ⟨c, hc, _⟩ := hsome
    cases hc
  | cons c cs ih =>
    unfold setDefaultsLoop at h
    split at h
    · cases h
    · rename_i dict1 h1
      by_cases hcn : n ∈ c.names
      · have hdef := hall c (List.mem_cons_self c cs) hcn
        obtain ⟨ha, hb⟩ := setDefaultsNames_sets data c.kind c.names dict dict1 n v hn hcn hdef h1
        exact (setDefaultsLoop_preserve data cs dict1 res n hb h).trans ha
      · have hn1 : gmem n dict1 = false :=
          setDefaultsNames_untouched data c.kind c.names dict dict1 n hn hcn h1
        have hsome' : ∃ c' ∈ cs, n ∈ c'.names := by
          obtain ⟨c', hc', hnc'⟩ := hsome
          rcases List.mem_cons.mp hc' with he | he
          · exact absurd (he ▸ hnc') hcn
          · exact ⟨c', he, hnc'⟩
        exact ih dict1 hn1 hsome' (fun c' hc' hh => hall c' (List.Mem.tail c hc') hh) h

/-- Counterexample to C3's tie-break: with observed data `["b", "a"]`
(both levels equally frequent), `set_default_values` fixes the
covariate at `"b"` — the first level encountered in the data — while
the first/lowest level in sorted order is `"a"`. -/
theorem set_default_values_counterexample :
    set_default_values [("g", NpColumn.strings ["b", "a"])]
        [⟨["g"], "categoric"⟩] [] "predictions"
      = .ok [("g", GridVal.str "b")]
    ∧ specSortedMode ["b", "a"] = some "a"
    ∧ GridVal.str "b" ≠ GridVal.str "a" :=
  ⟨rfl, rfl, by decide⟩

/-- Claim C3 as amended: a model covariate not requested in the grid
dict is held fixed at the observed mean (`np.mean`) when its component
is numeric, and at the observed mode when categoric — where mode ties
are broken by taking the first most-frequent value in order of first
occurrence in the data (`statistics.mode`), not the first in sorted
order. -/
theorem set_default_values_rule (data : List (String × NpColumn))
    (comps : List TermComponent) (dict res : List (String × GridVal))
    (n : String)
    (h : set_default_values data comps dict "predictions" = .ok res)
    (hn : gmem n dict = false)
    (hsome : ∃ c ∈ comps, n ∈ c.names) :
    (∀ xs, colLookup n data = some (NpColumn.numeric xs) →
      (∀ c ∈ comps, n ∈ c.names → c.kind = "numeric") →
      glookup n res = some (GridVal.num (npMean xs)))
    ∧ (∀ xs m, colLookup n data = some (NpColumn.strings xs) →
      pymode xs = some m →
      (∀ c ∈ comps, n ∈ c.names → c.kind = "categoric") →
      glookup n res = some (GridVal.str m)) := by
  have hloop : setDefaultsLoop data comps dict = .ok res := by
    unfold set_default_values at h
    rw [if_pos (Or.inr rfl)] at h
    split at h
    · cases h
    · rename_i d hd
      rw [if_neg (by decide)] at h
      cases h
      exact hd
  constructor
  · intro xs hcol hall
    refine setDefaultsLoop_sets data comps dict res n (GridVal.num (npMean xs)) hn hsome ?_ hloop
    intro c hc hnc
    rw [hall c hc hnc]
    simp [defaultForComponent, hcol]
  · intro xs m hcol hmode hall
    refine setDefaultsLoop_sets data comps dict res n (GridVal.str m) hn hsome ?_ hloop
    intro c hc hnc
    rw [hall c hc hnc]
    simp [defaultForComponent, hcol, hmode]

/-- Witness for the amended C3: with data `[("x", [1, 2, 4]), ("g",
["u", "v", "v"])]` and only `"x"` requested, the unrequested `"g"` is
fixed at its mode `"v"`. -/
theorem set_default_values_rule_witness :
    set_default_values
        [("x", NpColumn.numeric [1, 2, 4]), ("g", NpColumn.strings ["u", "v", "v"])]
        [⟨["x"], "numeric"⟩, ⟨["g"], "categoric"⟩]
        [("x", GridVal.nums [9])] "predictions"
      = .ok [("x", GridVal.nums [9]), ("g", GridVal.str "v")]
    ∧ glookup "g" [("x", GridVal.nums [9]), ("g", GridVal.str "v")]
        = some (GridVal.str "v") := by
  refine ⟨rfl, ?_⟩
  have h := (set_default_values_rule
    [("x", NpColumn.numeric [1, 2, 4]), ("g", NpColumn.strings ["u", "v", "v"])]
    [⟨["x"], "numeric"⟩, ⟨["g"], "categoric"⟩]
    [("x", GridVal.nums [9])]
    [("x", GridVal.nums [9]), ("g", GridVal.str "v")]
    "g" rfl (by decide)
    ⟨⟨["g"], "categoric"⟩, List.Mem.tail _ (List.mem_cons_self _ _), List.mem_cons_self _ _⟩).2
  refine h ["u", "v", "v"] "v" rfl rfl ?_
  intro c hc hnc
  rcases List.mem_cons.mp hc with he | he
  · rw [he] at hnc
    exact absurd hnc (by decide)
  · rcases List.mem_cons.mp he with he2 | he2
    · rw [he2]
    · cases he2

/-! ### Pairwise combinations in the effects layer (`plots/effects.py`) -/

/-- Model of `itertools.combinations(keys, 2)`: all unordered pairs in
combination order. -/
def combinations2 {α : Type} : List α → List (α × α)
  | [] => []
  | x :: xs => xs.map (fun y => (x, y)) ++ combinations2 xs

/-- Embedding of `PredictiveDifferences.set_variable_values`: pairwise
combinations of the draw keys, except that for `slopes` with
user-passed values the first half of the keys (original data) is paired
one-to-one with the second half (data plus `eps`). -/
def set_variable_values {α : Type} (keys : List α) (kind : String)
    (user_passed : Bool) (passedSize : ℕ) : List (α × α) :=
  let pairwise := combinations2 keys
  if kind = "slopes" && user_passed then
    (keys.take passedSize).zip (keys.drop passedSize)
  else pairwise

theorem combinations2_length {α : Type} (l : List α) :
    (combinations2 l).length = l.length.choose 2 := by
  induction l with
  | nil => rfl
  | cons x xs ih =>
    simp only [combinations2, List.length_append, List.length_map, ih,
      List.length_cons]
    rw [Nat.choose_succ_succ, Nat.choose_one_right]

/-- Claim C7: the effects layer forms all `C(K, 2)` pairwise
differences of the `K` draw keys in combination order, except in the
slopes case with user-passed values, where the original keys are paired
one-to-one with their `eps`-perturbed counterparts. -/
theorem set_variable_values_rule {α : Type} (keys : List α) (kind : String)
    (up : Bool) (sz : ℕ) :
    (¬ (kind = "slopes" ∧ up = true) →
      set_variable_values keys kind up sz = combinations2 keys
      ∧ (set_variable_values keys kind up sz).length = keys.length.choose 2)
    ∧ (∀ a b : List α, kind = "slopes" → up = true → a.length = sz →
      set_variable_values (a ++ b) kind up sz = a.zip b) := by
  constructor
  · intro hnot
    have hcond : (decide (kind = "slopes") && up) = false := by
      cases up with
      | false => rw [Bool.and_false]
      | true =>
        rcases eq_or_ne kind "slopes" with hk | hk
        · exact absurd ⟨hk, rfl⟩ hnot
        · simp [hk]
    constructor
    · simp [set_variable_values, hcond]
    · rw [show set_variable_values keys kind up sz = combinations2 keys by
        simp [set_variable_values, hcond]]
      exact combinations2_length keys
  · intro a b hk hu hsz
    subst hk hu hsz
    simp only [set_variable_values, decide_True, Bool.true_and, if_true]
    rw [List.take_left, List.drop_left]

/-- Witness for C7: three keys give the three pairwise combinations
(`C(3,2) = 3`), and the slopes case pairs `[0, 1]` with `[10, 11]`
one-to-one. -/
theorem set_variable_values_rule_witness :
    set_variable_values ["m0", "m1", "m2"] "comparisons" false 0
      = [("m0", "m1"), ("m0", "m2"), ("m1", "m2")]
    ∧ (set_variable_values ["m0", "m1", "m2"] "comparisons" false 0).length
        = Nat.choose 3 2
    ∧ set_variable_values ([0, 1] ++ [10, 11] : List ℤ) "slopes" true 2
        = [(0, 10), (1, 11)] := by
  have h := set_variable_values_rule ["m0", "m1", "m2"] "comparisons" false 0
  have h2 := set_variable_values_rule ([0, 1] ++ [10, 11] : List ℤ) "slopes" true 2
  refine ⟨?_, ?_, ?_⟩
  · exact ((h.1 (by simp)).1).trans rfl
  · exact (h.1 (by simp)).2
  · exact (h2.2 [0, 1] [10, 11] rfl rfl rfl).trans rfl

/-! ### The slopes effect-type switch (`plots/effects.py`, `slopes`) -/

/-- The dtype test `is_categorical_dtype(...) or is_string_dtype(...)`
used by `slopes`. -/
def isCategoricalOrString : NpColumn → Bool
  | .categorical _ => true
  | .strings _ => true
  | .numeric _ => false

/-- Embedding of the front of `slopes`: its validation (a dict `wrt`
needs a `conditional`; at most one `wrt` predictor; `prob` strictly
between 0 and 1) followed by the effect-type selection: a categorical
or string `wrt` column silently switches the effect type to
`"comparisons"` and discards `eps`. -/
def slopesFront (wrtIsDict : Bool) (wrtDictLen : ℕ) (conditionalIsNone : Bool)
    (wrtCol : NpColumn) (prob eps : ℚ) : Except String (String × Option ℚ) :=
  if conditionalIsNone && wrtIsDict then
    .error "ValueError: If a value is passed with wrt, then conditional cannot be None."
  else if wrtIsDict && decide (1 < wrtDictLen) then
    .error "ValueError: Only one predictor can be passed to wrt."
  else if ¬ (0 < prob ∧ prob < 1) then
    .error "ValueError: prob must be greater than 0 and smaller than 1."
  else if isCategoricalOrString wrtCol then
    .ok ("comparisons", none)
  else
    .ok ("slopes", some eps)

/-- Claim C8: for a `wrt` variable of categorical or string dtype,
`slopes` does not raise: with valid arguments it silently selects the
`"comparisons"` effect type (discrete differences) and discards `eps`
instead of attempting a numeric derivative. -/
theorem slopes_categorical_switch (wrtIsDict : Bool) (wrtDictLen : ℕ)
    (condNone : Bool) (col : NpColumn) (prob eps : ℚ)
    (hvalid1 : ¬ (condNone = true ∧ wrtIsDict = true))
    (hvalid2 : ¬ (wrtIsDict = true ∧ 1 < wrtDictLen))
    (hprob : 0 < prob ∧ prob < 1)
    (hcat : isCategoricalOrString col = true) :
    slopesFront wrtIsDict wrtDictLen condNone col prob eps
      = .ok ("comparisons", none) := by
  have h1 : (condNone && wrtIsDict) = false := by
    cases condNone with
    | false => rw [Bool.false_and]
    | true =>
      cases wrtIsDict with
      | false => rw [Bool.and_false]
      | true => exact absurd ⟨rfl, rfl⟩ hvalid1
  have h2 : (wrtIsDict && decide (1 < wrtDictLen)) = false := by
    cases wrtIsDict with
    | false => rw [Bool.false_and]
    | true =>
      rcases Nat.lt_or_ge 1 wrtDictLen with hl | hl
      · exact absurd ⟨rfl, hl⟩ hvalid2
      · simp [Nat.not_lt.mpr hl]
  simp [slopesFront, h1, h2, hprob, not_and_or, hcat]

/-- Witness for C8: a string-dtype `wrt` column with default arguments
selects `"comparisons"` and drops `eps = 1/10000`. -/
theorem slopes_categorical_switch_witness :
    slopesFront false 0 true (NpColumn.strings ["a", "b"]) (94/100) (1/10000)
      = .ok ("comparisons", none) :=
  slopes_categorical_switch false 0 true (NpColumn.strings ["a", "b"]) (94/100) (1/10000)
    (by simp) (by simp) (by norm_num) rfl

/-! ### DistributionalComponent.predict (`model_components.py`) -/

/-- Dot product of two aligned rational vectors. -/
def dotQ (xs ys : List ℚ) : ℚ := (xs.zip ys).foldl (fun acc p => acc + p.1 * p.2) 0

/-- Model of `xr.dot(X, b)` for a design matrix `X` (observations ×
variables) and a stacked coefficient block `b` (chain × draw ×
variables): the result carries xarray's output dimension order
(observation, chain, draw). -/
def xdot (X : List (List ℚ)) (B : List (List (List ℚ))) : List (List (List ℚ)) :=
  X.map (fun row => B.map (fun chain => chain.map (fun draw => dotQ row draw)))

/-- The running `linear_predictor` local of `predict`: it starts as the
Python int `0` and becomes an xarray object only when a design-matrix
contribution is added. -/
inductive LinPred where
  | pyInt : ℤ → LinPred
  | arr : List (List (List ℚ)) → LinPred

/-- Python `+` between the running linear predictor and an (observation
× chain × draw) array: `int + DataArray` broadcasts, `DataArray +
DataArray` adds elementwise. -/
def lpAddArr (lp : LinPred) (x : List (List (List ℚ))) : LinPred :=
  match lp with
  | .pyInt z => .arr (x.map (fun p => p.map (fun q => q.map (fun v => z + v))))
  | .arr y =>
    .arr ((y.zip x).map (fun pr =>
      (pr.1.zip pr.2).map (fun qr => (qr.1.zip qr.2).map (fun vr => vr.1 + vr.2))))

/-- Model of `np.column_stack(x_offsets).sum(axis=1)[:, None, None]`
added to the linear predictor: the per-observation offset total,
broadcast over chains and draws.  (In the source offsets are sliced out
of the common design matrix, so this addition can only run when the
common branch ran and the linear predictor is an array.) -/
def lpAddOffsets (lp : LinPred) (offsets : List (List ℚ)) : LinPred :=
  match lp with
  | .pyInt z => .pyInt z
  | .arr y =>
    .arr ((List.range y.length).zip y |>.map (fun pr =>
      pr.2.map (fun q => q.map (fun v =>
        v + (offsets.map (fun col => (col.get? pr.1).getD 0)).sum))))

/-- Element access in a 3-d nested list. -/
def get3 (x : List (List (List ℚ))) (i j k : ℕ) : ℚ :=
  ((((x.get? i).getD []).get? j).getD [] |>.get? k).getD 0

/-- Model of `.transpose("chain", "draw", obs_dim)` on the linear
predictor whose dims are (observation, chain, draw): a Python int has
no `transpose` attribute, an array is permuted. -/
def lpTranspose : LinPred → Except String (List (List (List ℚ)))
  | .pyInt _ => .error "AttributeError: 'int' object has no attribute 'transpose'"
  | .arr x =>
    let nO := x.length
    let nC := (x.head?.getD []).length
    let nD := ((x.head?.getD []).head?.getD []).length
    .ok ((List.range nC).map (fun c => (List.range nD).map (fun d =>
      (List.range nO).map (fun o => get3 x o c d))))

/-- One side (common or group-specific) of the design used by
`predict`: the design matrix and the coefficient block gathered from
the posterior (`to_stacked_array` over the component's term names); the
common side also carries the offset columns sliced out of its matrix. -/
structure DesignPartRep where
  matrix : List (List ℚ)
  coefs : List (List (List ℚ))
  offsets : List (List ℚ)

/-- Embedding of `DistributionalComponent.predict` for a univariate
family (the multivariate stacking and the family `transform_*` hooks do
not exist on univariate families): starting from the Python int 0, add
`X·b` when a common design exists, add `Z·u` when a group-specific
design exists and is included, add offsets when present, transpose to
(chain, draw, observation), and apply the parameter's link inverse
elementwise. -/
def componentPredict (common : Option DesignPartRep) (group : Option DesignPartRep)
    (linkinv : ℚ → ℚ) : Except String (List (List (List ℚ))) :=
  let lp0 : LinPred := .pyInt 0
  let lp1 : LinPred :=
    match common with
    | some c => lpAddArr lp0 (xdot c.matrix c.coefs)
    | none => lp0
  let lp2 : LinPred :=
    match group with
    | some g => lpAddArr lp1 (xdot g.matrix g.coefs)
    | none => lp1
  let xOffsets : List (List ℚ) :=
    match common with
    | some c => c.offsets
    | none => []
  let lp3 : LinPred := if xOffsets.isEmpty then lp2 else lpAddOffsets lp2 xOffsets
  match lpTranspose lp3 with
  | .error e => .error e
  | .ok t => .ok (t.map (fun p => p.map (fun q => q.map linkinv)))

/-- Claim C1 (the failing behaviour): when the component's design has
neither a common nor a group-specific part, the linear predictor is
still the Python int `0` when `predict` reaches
`linear_predictor.transpose(...)`, so the call raises an
`AttributeError` instead of returning the link-inverse of the constant
zero — for every link function. -/
theorem component_predict_empty_raises (linkinv : ℚ → ℚ) :
    componentPredict none none linkinv
      = .error "AttributeError: 'int' object has no attribute 'transpose'" := rfl

/-- Sanity check of the embedding: with a one-column common design the
same code path returns the link-inverse of `X·b` without error. -/
theorem component_predict_nonempty_ok :
    componentPredict (some ⟨[[1], [2]], [[[3]]], []⟩) none (fun v => v + 100)
      = .ok [[[103, 106]]] := by
  norm_num [componentPredict, lpAddArr, xdot, dotQ, lpTranspose, get3, List.range_succ]
